import Mathlib

/-!
Shallow embedding of the caption-generator backend (`main.py`).

Strings are modelled as `List Char` (`Str`).  Python string operations used by
the code (`str.split()`, `str.isalpha()`, `str.lower()`, `str.strip()`,
`" ".join`) are modelled character-by-character; alphabetic classification and
lowercasing are modelled on the ASCII range, which is the range all concrete
table entries and all concrete inputs in this development use.

The only randomness in the program is `random.choice` inside `choose`; it is
modelled by an extra natural-number draw `k`, the chosen index being
`k % arr.length`, so that every possible random outcome is some `k`.
-/

/-- Strings of the embedded program. -/
abbrev Str := List Char

/-- Python `str.isspace` / the whitespace set of `str.split()` (ASCII part). -/
def isWS (c : Char) : Bool :=
  c.toNat = 32 || c.toNat = 9 || c.toNat = 10 || c.toNat = 13 || c.toNat = 11 || c.toNat = 12

/-- ASCII-alphabetic character, as used by Python `str.isalpha` on ASCII input. -/
def isAlphaChar (c : Char) : Bool :=
  (65 ≤ c.toNat && c.toNat ≤ 90) || (97 ≤ c.toNat && c.toNat ≤ 122)

/-- Python `str.isalpha`: non-empty and every character alphabetic. -/
def pyIsAlpha (w : Str) : Bool :=
  !w.isEmpty && w.all isAlphaChar

/-- ASCII lowercasing of one character, as in Python `str.lower` on ASCII. -/
def toLowerChar (c : Char) : Char :=
  if 65 ≤ c.toNat && c.toNat ≤ 90 then Char.ofNat (c.toNat + 32) else c

/-- Python `str.lower` (ASCII range). -/
def lower (w : Str) : Str := w.map toLowerChar

/-- Auxiliary for `pySplit`: `acc` holds the current word reversed. -/
def pySplitAux : List Char → List Char → List Str
  | [], acc => if acc.isEmpty then [] else [acc.reverse]
  | c :: rest, acc =>
    if isWS c then
      if acc.isEmpty then pySplitAux rest [] else acc.reverse :: pySplitAux rest []
    else pySplitAux rest (c :: acc)

/-- Python `str.split()` with no argument: split on whitespace runs, no empty words. -/
def pySplit (w : Str) : List Str := pySplitAux w []

/-- Python `str.strip()`: drop leading and trailing whitespace. -/
def strip (w : Str) : Str :=
  ((w.dropWhile isWS).reverse.dropWhile isWS).reverse

/-- Python `" ".join`. -/
def joinSpace : List Str → Str
  | [] => []
  | [x] => x
  | x :: y :: rest => x ++ ' ' :: joinSpace (y :: rest)

/-- A tone's style entry: the `"prefixes"` and `"emojis"` lists of `TONE_STYLES`. -/
structure ToneStyle where
  prefixes : List Str
  emojis : List Str
deriving DecidableEq

/-- The `friendly` entry of `TONE_STYLES` (`main.py` lines 70-73). -/
def friendlyStyle : ToneStyle :=
  { prefixes := ["Hey there!".toList, "Fun fact:".toList, "Guess what?".toList, "PSA:".toList]
    emojis := ["😊".toList, "✨".toList, "🎉".toList, "🚀".toList, "🙌".toList] }

/-- `TONE_STYLES` (`main.py` lines 69-98). -/
def TONE_STYLES : List (Str × ToneStyle) :=
  [ ("friendly".toList, friendlyStyle),
    ("professional".toList,
      { prefixes := ["Pro tip:".toList, "Insight:".toList, "Quick update:".toList, "Heads up:".toList]
        emojis := ["💼".toList, "📈".toList, "🧠".toList, "✅".toList] }),
    ("witty".toList,
      { prefixes := ["Plot twist:".toList, "Hot take:".toList, "Low-key obsessed with:".toList, "Unpopular opinion:".toList]
        emojis := ["😏".toList, "🔥".toList, "🧩".toList, "😉".toList] }),
    ("bold".toList,
      { prefixes := ["Say it louder:".toList, "No fluff:".toList, "Real talk:".toList, "Let’s be honest:".toList]
        emojis := ["⚡".toList, "🔥".toList, "💥".toList, "🏆".toList] }),
    ("luxury".toList,
      { prefixes := ["Elevate:".toList, "Curated:".toList, "Crafted:".toList, "Exquisite:".toList]
        emojis := ["✨".toList, "💫".toList, "💎".toList, "🖤".toList] }),
    ("educational".toList,
      { prefixes := ["Here’s the breakdown:".toList, "Step-by-step:".toList, "3 things to know:".toList, "Learn this:".toList]
        emojis := ["📚".toList, "📝".toList, "💡".toList, "🔍".toList] }),
    ("casual".toList,
      { prefixes := ["Okay but listen:".toList, "So...".toList, "Not me doing:".toList, "Mood:".toList]
        emojis := ["😌".toList, "🤙".toList, "👌".toList, "✨".toList] }) ]

/-- `TONE_STYLES.get(tone, TONE_STYLES["friendly"])` (`main.py` line 136). -/
def toneGet (tone : Str) : ToneStyle :=
  ((TONE_STYLES.lookup tone).getD friendlyStyle)

/-- `PLATFORM_HASHTAGS` (`main.py` lines 100-106). -/
def PLATFORM_HASHTAGS : List (Str × List Str) :=
  [ ("instagram".toList,
      ["#instadaily".toList, "#trending".toList, "#reels".toList, "#explore".toList, "#viral".toList]),
    ("tiktok".toList,
      ["#fyp".toList, "#foryou".toList, "#tiktok".toList, "#viral".toList, "#trend".toList]),
    ("twitter".toList,
      ["#NowPlaying".toList, "#ICYMI".toList, "#Thread".toList, "#Vibes".toList]),
    ("linkedin".toList,
      ["#leadership".toList, "#growth".toList, "#careers".toList, "#marketing".toList, "#business".toList]),
    ("youtube".toList,
      ["#Shorts".toList, "#Creator".toList, "#HowTo".toList, "#BehindTheScenes".toList]) ]

/-- `PLATFORM_HASHTAGS.get(platform, [])` (`main.py` line 115). -/
def platformGet (platform : Str) : List Str :=
  ((PLATFORM_HASHTAGS.lookup platform).getD [])

/-- `GENERIC_HASHTAGS` (`main.py` line 108). -/
def GENERIC_HASHTAGS : List Str :=
  ["#life".toList, "#creative".toList, "#goals".toList, "#inspo".toList, "#community".toList, "#content".toList]

/-- The dedup-and-limit loop of `suggest_hashtags` (`main.py` lines 119-126):
`seen` is the membership set, `unique` the accumulated output; after each
iteration the loop breaks as soon as `unique` has reached `limit` elements. -/
def uniqueLoop (limit : Nat) : List Str → List Str → List Str → List Str
  | _, unique, [] => unique
  | seen, unique, t :: rest =>
    if t ∈ seen then
      if limit ≤ unique.length then unique else uniqueLoop limit seen unique rest
    else
      if limit ≤ (unique ++ [t]).length then unique ++ [t]
      else uniqueLoop limit (t :: seen) (unique ++ [t]) rest

/-- `suggest_hashtags` (`main.py` lines 111-127). -/
def suggest_hashtags (topic platform : Str) (include_hashtags : Bool) (length : Str) : Str :=
  if !include_hashtags then []
  else
    let topic_tags := (((pySplit topic).filter pyIsAlpha).map (fun w => '#' :: lower w)).take 3
    let base := (platformGet platform).take 3
    let generic := GENERIC_HASHTAGS.take (if length = "short".toList then 3 else 5)
    let all_tags := topic_tags ++ base ++ generic
    let limit := if length = "short".toList then 4 else if length = "medium".toList then 7 else 10
    joinSpace (uniqueLoop limit [] [] all_tags)

/-- `choose` (`main.py` lines 130-132): `random.choice(arr) if arr else ""`,
with the random draw modelled by the index `k % arr.length`. -/
def choose (arr : List Str) (k : Nat) : Str :=
  if arr.isEmpty then [] else arr.getD (k % arr.length) []

/-- The length-keyed body template of `build_caption` (`main.py` lines 141-146). -/
def length_core (topic length : Str) : Str :=
  if length = "short".toList then topic ++ " — let’s go!".toList
  else if length = "long".toList then
    topic ++ ". Here’s why it matters and how you can make it work today. Save this for later!".toList
  else topic ++ " done right. Screenshot this if you needed the nudge.".toList

/-- `build_caption` (`main.py` lines 135-152); `k` is the random draw of `choose`. -/
def build_caption (topic tone platform length : Str)
    (include_emojis include_hashtags : Bool) (k : Nat) : Str :=
  let tone_conf := toneGet tone
  let pfx := choose tone_conf.prefixes k
  let emojis := if include_emojis then tone_conf.emojis else []
  let core := length_core topic length
  let emoji_str := if emojis.isEmpty then [] else ' ' :: joinSpace (emojis.take 2)
  let ht := suggest_hashtags topic platform include_hashtags length
  let ht_str := if ht.isEmpty then [] else '\n' :: '\n' :: ht
  strip (pfx ++ ' ' :: core ++ emoji_str ++ ht_str)

/-- `GenerateRequest` (`main.py` lines 155-162); the default values are the
pydantic field defaults. -/
structure GenerateRequest where
  topic : Str
  tone : Str := "friendly".toList
  platform : Str := "instagram".toList
  length : Str := "medium".toList
  include_emojis : Bool := true
  include_hashtags : Bool := true
  variants : Nat := 3

/-- The pydantic validation of `GenerateRequest`: `topic` has `min_length=3`
(on the raw, untrimmed string) and `variants` has `ge=1, le=10`. -/
def pydantic_valid (r : GenerateRequest) : Bool :=
  3 ≤ r.topic.length && 1 ≤ r.variants && r.variants ≤ 10

/-- The `POST /api/generate` handler `generate_captions` (`main.py` lines
170-206).  `ks i` is the random draw used by the `i`-th `build_caption` call;
`persist` is the outcome of `create_document` on this request's record
(`.error` when it raises).  `.error 422` is pydantic rejecting the body,
`.error 400` the handler's empty-topic rejection. -/
def generate_captions (r : GenerateRequest) (ks : Nat → Nat)
    (persist : Except Unit Str) : Except Nat (List Str × Option Str) :=
  if !pydantic_valid r then .error 422
  else
    let topic := strip r.topic
    if topic.isEmpty then .error 400
    else
      let variants := (List.range r.variants).map fun i =>
        build_caption topic (lower r.tone) (lower r.platform) (lower r.length)
          r.include_emojis r.include_hashtags (ks i)
      let saved_id := match persist with
        | .ok i => some i
        | .error _ => none
      .ok (variants, saved_id)

/-- First-occurrence deduplication, written after the spec's step 4
("deduplicate preserving first occurrence"), skipping anything in `seen`. -/
def dedupAvoid (seen : List Str) : List Str → List Str
  | [] => []
  | t :: rest => if t ∈ seen then dedupAvoid seen rest else t :: dedupAvoid (t :: seen) rest

/-- `w` is non-empty and does not start with whitespace. -/
def startsNonWS (w : Str) : Bool :=
  match w with
  | [] => false
  | c :: _ => !isWS c

/-- `w` is non-empty and does not end with whitespace. -/
def endsNonWS (w : Str) : Bool :=
  startsNonWS w.reverse

section Lemmas

theorem isWS_toLowerChar_of_isAlphaChar {c : Char} (h : isAlphaChar c = true) :
    isWS (toLowerChar c) = false := by
  unfold isAlphaChar at h
  unfold toLowerChar
  simp only [Bool.or_eq_true, Bool.and_eq_true, decide_eq_true_eq] at h
  rcases h with ⟨h1, h2⟩ | ⟨h1, h2⟩
  · have hif : (65 ≤ c.toNat && c.toNat ≤ 90) = true := by
      simp only [Bool.and_eq_true, decide_eq_true_eq]; exact ⟨h1, h2⟩
    rw [hif]
    simp only [if_true]
    set n := c.toNat with hn
    interval_cases n <;> decide
  · have hif : (65 ≤ c.toNat && c.toNat ≤ 90) = false := by
      simp only [Bool.and_eq_false_iff, decide_eq_false_iff_not]
      omega
    rw [hif]
    simp only [Bool.false_eq_true, if_false]
    unfold isWS
    simp only [Bool.or_eq_false_iff, decide_eq_false_iff_not]
    omega

theorem mem_of_lookup {α β : Type} [BEq α] [LawfulBEq α] :
    ∀ (l : List (α × β)) (a : α) (b : β), List.lookup a l = some b → b ∈ l.map Prod.snd
  | [], _, _, h => by simp [List.lookup] at h
  | (k, v) :: es, a, b, h => by
    rw [List.lookup] at h
    cases hak : a == k with
    | true => rw [hak] at h; simp at h; simp [h]
    | false =>
      rw [hak] at h
      simp only at h
      simp [mem_of_lookup es a b h]

theorem toneGet_mem (tone : Str) :
    toneGet tone ∈ friendlyStyle :: TONE_STYLES.map Prod.snd := by
  unfold toneGet
  rcases h : List.lookup tone TONE_STYLES with _ | s
  · exact List.mem_cons_self _ _
  · exact List.mem_cons_of_mem _ (mem_of_lookup _ _ _ h)

theorem platformGet_mem (p : Str) :
    platformGet p ∈ ([] : List Str) :: PLATFORM_HASHTAGS.map Prod.snd := by
  unfold platformGet
  rcases h : List.lookup p PLATFORM_HASHTAGS with _ | s
  · exact List.mem_cons_self _ _
  · exact List.mem_cons_of_mem _ (mem_of_lookup _ _ _ h)

theorem choose_mem {arr : List Str} (h : arr ≠ []) (k : Nat) : choose arr k ∈ arr := by
  unfold choose
  rw [if_neg (by simpa using h)]
  have hlen : 0 < arr.length := List.length_pos.mpr h
  have hk : k % arr.length < arr.length := Nat.mod_lt _ hlen
  rw [List.getD_eq_getElem _ _ hk]
  exact List.getElem_mem hk

theorem choose_eq_nil_or_mem (arr : List Str) (k : Nat) :
    choose arr k = [] ∨ choose arr k ∈ arr := by
  by_cases h : arr = []
  · subst h; left; rfl
  · right; exact choose_mem h k

theorem mem_of_mem_dropWhile {c : Char} {p : Char → Bool} {l : Str}
    (h : c ∈ l.dropWhile p) : c ∈ l :=
  (List.dropWhile_sublist _).mem h

theorem mem_of_mem_strip {c : Char} {w : Str} (h : c ∈ strip w) : c ∈ w := by
  unfold strip at h
  rw [List.mem_reverse] at h
  have h2 := mem_of_mem_dropWhile h
  rw [List.mem_reverse] at h2
  exact mem_of_mem_dropWhile h2

theorem startsNonWS_append {a b : Str} (h : startsNonWS a = true) :
    startsNonWS (a ++ b) = true := by
  cases a with
  | nil => simp [startsNonWS] at h
  | cons c t => simpa [startsNonWS] using h

theorem endsNonWS_append {a b : Str} (h : endsNonWS b = true) :
    endsNonWS (a ++ b) = true := by
  unfold endsNonWS at *
  rw [List.reverse_append]
  exact startsNonWS_append h

theorem ne_nil_of_startsNonWS {w : Str} (h : startsNonWS w = true) : w ≠ [] := by
  cases w with
  | nil => simp [startsNonWS] at h
  | cons c t => simp

theorem ne_nil_of_endsNonWS {w : Str} (h : endsNonWS w = true) : w ≠ [] := by
  unfold endsNonWS at h
  have := ne_nil_of_startsNonWS h
  intro hw
  rw [hw] at this
  exact this rfl

theorem strip_eq_self {w : Str} (h1 : startsNonWS w = true) (h2 : endsNonWS w = true) :
    strip w = w := by
  unfold strip
  have hdw : w.dropWhile isWS = w := by
    cases w with
    | nil => rfl
    | cons c t =>
      simp only [startsNonWS, Bool.not_eq_true'] at h1
      rw [List.dropWhile_cons, if_neg (by simp [h1])]
  rw [hdw]
  unfold endsNonWS at h2
  cases hr : w.reverse with
  | nil => rw [hr] at h2; simp [startsNonWS] at h2
  | cons d s =>
    rw [hr] at h2
    simp only [startsNonWS, Bool.not_eq_true'] at h2
    rw [List.dropWhile_cons, if_neg (by simp [h2]), ← hr, List.reverse_reverse]

theorem endsNonWS_joinSpace :
    ∀ {l : List Str}, l ≠ [] → (∀ x ∈ l, endsNonWS x = true) →
      endsNonWS (joinSpace l) = true
  | [], h, _ => absurd rfl h
  | [x], _, hall => by simpa [joinSpace] using hall x (by simp)
  | x :: y :: rest, _, hall => by
    rw [joinSpace]
    apply endsNonWS_append
    have hj := endsNonWS_joinSpace (l := y :: rest) (by simp)
      (fun z hz => hall z (List.mem_cons_of_mem _ hz))
    have h2 : (' ' :: joinSpace (y :: rest)) = [' '] ++ joinSpace (y :: rest) := rfl
    rw [h2]
    exact endsNonWS_append hj

theorem mem_joinSpace :
    ∀ {c : Char} {l : List Str}, c ∈ joinSpace l → c = ' ' ∨ ∃ x ∈ l, c ∈ x
  | c, [], h => by simp [joinSpace] at h
  | c, [x], h => by
    right
    exact ⟨x, by simp, by simpa [joinSpace] using h⟩
  | c, x :: y :: rest, h => by
    rw [joinSpace] at h
    rcases List.mem_append.mp h with hx | hr
    · right; exact ⟨x, by simp, hx⟩
    · rcases List.mem_cons.mp hr with hsp | hj
      · left; exact hsp
      · rcases mem_joinSpace hj with hsp | ⟨z, hz, hcz⟩
        · left; exact hsp
        · right; exact ⟨z, List.mem_cons_of_mem _ hz, hcz⟩

theorem mem_uniqueLoop :
    ∀ {x : Str} {limit : Nat} (l seen unique : List Str),
      x ∈ uniqueLoop limit seen unique l → x ∈ unique ∨ x ∈ l
  | x, limit, [], seen, unique, h => Or.inl (by simpa [uniqueLoop] using h)
  | x, limit, t :: rest, seen, unique, h => by
    rw [uniqueLoop] at h
    by_cases hts : t ∈ seen
    · rw [if_pos hts] at h
      by_cases hl : limit ≤ unique.length
      · rw [if_pos hl] at h; exact Or.inl h
      · rw [if_neg hl] at h
        rcases mem_uniqueLoop rest seen unique h with h1 | h1
        · exact Or.inl h1
        · exact Or.inr (List.mem_cons_of_mem _ h1)
    · rw [if_neg hts] at h
      by_cases hl : limit ≤ (unique ++ [t]).length
      · rw [if_pos hl] at h
        rcases List.mem_append.mp h with h1 | h1
        · exact Or.inl h1
        · have hxt : x = t := List.mem_singleton.mp h1
          exact Or.inr (by rw [hxt]; exact List.mem_cons_self t rest)
      · rw [if_neg hl] at h
        rcases mem_uniqueLoop rest (t :: seen) (unique ++ [t]) h with h1 | h1
        · rcases List.mem_append.mp h1 with h2 | h2
          · exact Or.inl h2
          · have hxt : x = t := List.mem_singleton.mp h2
            exact Or.inr (by rw [hxt]; exact List.mem_cons_self t rest)
        · exact Or.inr (List.mem_cons_of_mem _ h1)

theorem uniqueLoop_ne_nil_of_unique :
    ∀ {limit : Nat} (l seen unique : List Str), unique ≠ [] →
      uniqueLoop limit seen unique l ≠ []
  | limit, [], seen, unique, h => by simpa [uniqueLoop] using h
  | limit, t :: rest, seen, unique, h => by
    rw [uniqueLoop]
    by_cases hts : t ∈ seen
    · rw [if_pos hts]
      by_cases hl : limit ≤ unique.length
      · rw [if_pos hl]; exact h
      · rw [if_neg hl]; exact uniqueLoop_ne_nil_of_unique rest seen unique h
    · rw [if_neg hts]
      by_cases hl : limit ≤ (unique ++ [t]).length
      · rw [if_pos hl]; simp
      · rw [if_neg hl]
        exact uniqueLoop_ne_nil_of_unique rest (t :: seen) (unique ++ [t]) (by simp)

theorem uniqueLoop_start_ne_nil {limit : Nat} (t : Str) (rest : List Str) :
    uniqueLoop limit [] [] (t :: rest) ≠ [] := by
  rw [uniqueLoop, if_neg (List.not_mem_nil t)]
  by_cases hl : limit ≤ (([] : List Str) ++ [t]).length
  · rw [if_pos hl]; simp
  · rw [if_neg hl]
    exact uniqueLoop_ne_nil_of_unique rest [t] [t] (by simp)

theorem mem_dedupAvoid :
    ∀ {x : Str} (seen l : List Str), x ∈ dedupAvoid seen l → x ∈ l ∧ x ∉ seen
  | x, seen, [], h => by simp [dedupAvoid] at h
  | x, seen, t :: rest, h => by
    rw [dedupAvoid] at h
    by_cases hts : t ∈ seen
    · rw [if_pos hts] at h
      obtain ⟨h1, h2⟩ := mem_dedupAvoid seen rest h
      exact ⟨List.mem_cons_of_mem _ h1, h2⟩
    · rw [if_neg hts] at h
      rcases List.mem_cons.mp h with rfl | h'
      · exact ⟨List.mem_cons_self _ _, hts⟩
      · obtain ⟨h1, h2⟩ := mem_dedupAvoid (t :: seen) rest h'
        exact ⟨List.mem_cons_of_mem _ h1, fun hx => h2 (List.mem_cons_of_mem _ hx)⟩

theorem dedupAvoid_nodup : ∀ (seen l : List Str), (dedupAvoid seen l).Nodup
  | seen, [] => List.nodup_nil
  | seen, t :: rest => by
    rw [dedupAvoid]
    by_cases hts : t ∈ seen
    · rw [if_pos hts]; exact dedupAvoid_nodup seen rest
    · rw [if_neg hts]
      refine List.nodup_cons.mpr ⟨?_, dedupAvoid_nodup (t :: seen) rest⟩
      intro hmem
      exact (mem_dedupAvoid (t :: seen) rest hmem).2 (List.mem_cons_self _ _)

theorem uniqueLoop_eq_dedup_take :
    ∀ (l : List Str) (limit : Nat) (seen unique : List Str),
      unique.length < limit →
      uniqueLoop limit seen unique l = (unique ++ dedupAvoid seen l).take limit
  | [], limit, seen, unique, h => by
    rw [uniqueLoop, dedupAvoid, List.append_nil, List.take_of_length_le (Nat.le_of_lt h)]
  | t :: rest, limit, seen, unique, h => by
    rw [uniqueLoop, dedupAvoid]
    by_cases hts : t ∈ seen
    · rw [if_pos hts, if_pos hts, if_neg (by omega : ¬ limit ≤ unique.length)]
      exact uniqueLoop_eq_dedup_take rest limit seen unique h
    · rw [if_neg hts, if_neg hts]
      by_cases hl : limit ≤ (unique ++ [t]).length
      · rw [if_pos hl]
        have hlen : (unique ++ [t]).length = limit := by
          simp only [List.length_append, List.length_singleton] at hl ⊢
          omega
        have hsplit : unique ++ t :: dedupAvoid (t :: seen) rest
            = (unique ++ [t]) ++ dedupAvoid (t :: seen) rest := by simp
        rw [hsplit, ← hlen, List.take_left]
      · rw [if_neg hl]
        have h2 : (unique ++ [t]).length < limit := by
          simp only [List.length_append, List.length_singleton] at hl ⊢
          omega
        rw [uniqueLoop_eq_dedup_take rest limit (t :: seen) (unique ++ [t]) h2]
        congr 1
        simp

theorem endsNonWS_cons {c : Char} {w : Str} (h : endsNonWS w = true) :
    endsNonWS (c :: w) = true :=
  endsNonWS_append (a := [c]) h

theorem tone_tables_ok :
    ∀ s ∈ friendlyStyle :: TONE_STYLES.map Prod.snd,
      s.prefixes ≠ [] ∧
      (∀ q ∈ s.prefixes, startsNonWS q = true ∧ '#' ∉ q) ∧
      (∀ em ∈ s.emojis, endsNonWS em = true ∧ '#' ∉ em) := by decide

theorem platform_tags_ok :
    ∀ ts ∈ PLATFORM_HASHTAGS.map Prod.snd, ∀ tag ∈ ts, endsNonWS tag = true := by decide

theorem generic_tags_ok : ∀ tag ∈ GENERIC_HASHTAGS, endsNonWS tag = true := by decide

theorem endsNonWS_length_core (t len : Str) : endsNonWS (length_core t len) = true := by
  unfold length_core
  by_cases h1 : len = "short".toList
  · rw [if_pos h1]; exact endsNonWS_append (by decide)
  · rw [if_neg h1]
    by_cases h2 : len = "long".toList
    · rw [if_pos h2]; exact endsNonWS_append (by decide)
    · rw [if_neg h2]; exact endsNonWS_append (by decide)

theorem hash_mem_length_core {t len : Str} (h : '#' ∈ length_core t len) : '#' ∈ t := by
  unfold length_core at h
  by_cases h1 : len = "short".toList
  · rw [if_pos h1] at h
    rcases List.mem_append.mp h with h' | h'
    · exact h'
    · exact absurd h' (by decide)
  · rw [if_neg h1] at h
    by_cases h2 : len = "long".toList
    · rw [if_pos h2] at h
      rcases List.mem_append.mp h with h' | h'
      · exact h'
      · exact absurd h' (by decide)
    · rw [if_neg h2] at h
      rcases List.mem_append.mp h with h' | h'
      · exact h'
      · exact absurd h' (by decide)

theorem endsNonWS_topic_tag {w : Str} (hw : pyIsAlpha w = true) :
    endsNonWS ('#' :: lower w) = true := by
  unfold pyIsAlpha at hw
  simp only [Bool.and_eq_true] at hw
  obtain ⟨hne, hall⟩ := hw
  rcases hr : w.reverse with _ | ⟨d, s⟩
  · exfalso
    have hwn : w = [] := by simpa using congrArg List.reverse hr
    rw [hwn] at hne
    simp at hne
  · have hd : d ∈ w := List.mem_reverse.mp (by rw [hr]; exact List.mem_cons_self _ _)
    have hda : isAlphaChar d = true := List.all_eq_true.mp hall d hd
    have hws := isWS_toLowerChar_of_isAlphaChar hda
    unfold endsNonWS lower
    rw [List.reverse_cons, ← List.map_reverse, hr, List.map_cons]
    simp [startsNonWS, hws]

/-- Every tag ever put into the `all_tags` list of `suggest_hashtags` is
non-empty and ends with a non-whitespace character. -/
theorem endsNonWS_all_tags (t p len : Str) :
    ∀ x ∈ (((pySplit t).filter pyIsAlpha).map (fun w => '#' :: lower w)).take 3
        ++ (platformGet p).take 3
        ++ GENERIC_HASHTAGS.take (if len = "short".toList then 3 else 5),
      endsNonWS x = true := by
  intro x hx
  rcases List.mem_append.mp hx with hx' | hx'
  · rcases List.mem_append.mp hx' with hx2 | hx2
    · have hx3 := List.mem_of_mem_take hx2
      obtain ⟨w, hw, rfl⟩ := List.mem_map.mp hx3
      exact endsNonWS_topic_tag (List.mem_filter.mp hw).2
    · have hx3 := List.mem_of_mem_take hx2
      rcases List.mem_cons.mp (platformGet_mem p) with hplat | hplat
      · rw [hplat] at hx3; simp at hx3
      · exact platform_tags_ok _ hplat x hx3
  · exact generic_tags_ok x (List.mem_of_mem_take hx')

theorem joinSpace_uniqueLoop_ok {limit : Nat} {A : List Str} (hA : A ≠ [])
    (hall : ∀ x ∈ A, endsNonWS x = true) :
    joinSpace (uniqueLoop limit [] [] A) ≠ [] ∧
      endsNonWS (joinSpace (uniqueLoop limit [] [] A)) = true := by
  have hU : uniqueLoop limit [] [] A ≠ [] := by
    cases A with
    | nil => exact absurd rfl hA
    | cons t rest => exact uniqueLoop_start_ne_nil t rest
  have hUall : ∀ x ∈ uniqueLoop limit [] [] A, endsNonWS x = true := by
    intro x hx
    rcases mem_uniqueLoop A [] [] hx with h | h
    · simp at h
    · exact hall x h
  have hE := endsNonWS_joinSpace hU hUall
  exact ⟨ne_nil_of_endsNonWS hE, hE⟩

/-- With the hashtag gate on, `suggest_hashtags` returns a non-empty string
ending in a non-whitespace character. -/
theorem suggest_hashtags_true_ok (t p len : Str) :
    suggest_hashtags t p true len ≠ [] ∧
      endsNonWS (suggest_hashtags t p true len) = true := by
  have hkey : suggest_hashtags t p true len =
      joinSpace (uniqueLoop
        (if len = "short".toList then 4 else if len = "medium".toList then 7 else 10) [] []
        ((((pySplit t).filter pyIsAlpha).map (fun w => '#' :: lower w)).take 3
          ++ (platformGet p).take 3
          ++ GENERIC_HASHTAGS.take (if len = "short".toList then 3 else 5))) := rfl
  rw [hkey]
  apply joinSpace_uniqueLoop_ok
  · intro hnil
    have hgen : GENERIC_HASHTAGS.take (if len = "short".toList then 3 else 5) ≠ [] := by
      by_cases h : len = "short".toList
      · rw [if_pos h]; decide
      · rw [if_neg h]; decide
    exact hgen (List.append_eq_nil.mp hnil).2
  · exact endsNonWS_all_tags t p len

theorem startsNonWS_choose_prefixes (tone : Str) (k : Nat) :
    startsNonWS (choose (toneGet tone).prefixes k) = true := by
  have hmem := toneGet_mem tone
  have hne : (toneGet tone).prefixes ≠ [] := (tone_tables_ok _ hmem).1
  exact ((tone_tables_ok _ hmem).2.1 _ (choose_mem hne k)).1

/-- The final `strip` in `build_caption` is the identity: the assembled string
starts with a tone prefix (non-whitespace) and ends either with a hashtag, an
emoji, or the body template, none of which end in whitespace. -/
theorem build_caption_no_strip (t tone p len : Str) (e h : Bool) (k : Nat) :
    build_caption t tone p len e h k =
      choose (toneGet tone).prefixes k ++ ' ' :: length_core t len
        ++ (if (if e then (toneGet tone).emojis else []).isEmpty then []
            else ' ' :: joinSpace ((if e then (toneGet tone).emojis else []).take 2))
        ++ (if (suggest_hashtags t p h len).isEmpty then []
            else '\n' :: '\n' :: suggest_hashtags t p h len) := by
  show strip (choose (toneGet tone).prefixes k ++ ' ' :: length_core t len
        ++ (if (if e then (toneGet tone).emojis else []).isEmpty then []
            else ' ' :: joinSpace ((if e then (toneGet tone).emojis else []).take 2))
        ++ (if (suggest_hashtags t p h len).isEmpty then []
            else '\n' :: '\n' :: suggest_hashtags t p h len)) = _
  apply strip_eq_self
  · exact startsNonWS_append (startsNonWS_append
      (startsNonWS_append (startsNonWS_choose_prefixes tone k)))
  · by_cases hht : (suggest_hashtags t p h len).isEmpty
    · rw [if_pos hht, List.append_nil]
      by_cases hem : (if e then (toneGet tone).emojis else []).isEmpty
      · rw [if_pos hem, List.append_nil]
        exact endsNonWS_append (endsNonWS_cons (endsNonWS_length_core t len))
      · rw [if_neg hem]
        apply endsNonWS_append
        apply endsNonWS_cons
        apply endsNonWS_joinSpace
        · intro htake
          have : (if e then (toneGet tone).emojis else []) = [] := by
            rcases hlen : (if e then (toneGet tone).emojis else []) with _ | ⟨a, b⟩
            · rfl
            · rw [hlen] at htake; simp [List.take] at htake
          rw [this] at hem
          simp at hem
        · intro x hx
          have hx' := List.mem_of_mem_take hx
          cases e with
          | false => simp at hx'
          | true =>
            simp only [if_true] at hx'
            exact ((tone_tables_ok _ (toneGet_mem tone)).2.2 x hx').1
    · rw [if_neg hht]
      apply endsNonWS_append
      apply endsNonWS_cons
      apply endsNonWS_cons
      have hne : suggest_hashtags t p h len ≠ [] := by
        intro hnil; rw [hnil] at hht; simp at hht
      cases h with
      | false =>
        exfalso
        exact hne rfl
      | true => exact (suggest_hashtags_true_ok t p len).2

theorem suggest_hashtags_false (t p len : Str) : suggest_hashtags t p false len = [] := rfl

/-- With the hashtag gate off, no character of a produced caption is `#`
unless the topic itself contains one. -/
theorem hash_not_mem_build_caption {t tone p len : Str} {e : Bool} {k : Nat}
    (htop : '#' ∉ t) : '#' ∉ build_caption t tone p len e false k := by
  rw [build_caption_no_strip, suggest_hashtags_false]
  intro hmem
  rw [List.isEmpty_nil, if_pos rfl, List.append_nil] at hmem
  rcases List.mem_append.mp hmem with hm | hm
  · rcases List.mem_append.mp hm with hm2 | hm2
    · rcases choose_eq_nil_or_mem (toneGet tone).prefixes k with hc | hc
      · rw [hc] at hm2; simp at hm2
      · exact ((tone_tables_ok _ (toneGet_mem tone)).2.1 _ hc).2 hm2
    · rcases List.mem_cons.mp hm2 with hsp | hcore
      · exact absurd hsp (by decide)
      · exact htop (hash_mem_length_core hcore)
  · by_cases hem : (if e then (toneGet tone).emojis else []).isEmpty
    · rw [if_pos hem] at hm; simp at hm
    · rw [if_neg hem] at hm
      rcases List.mem_cons.mp hm with hsp | hjoin
      · exact absurd hsp (by decide)
      · rcases mem_joinSpace hjoin with hsp | ⟨x, hx, hcx⟩
        · exact absurd hsp (by decide)
        · have hx' := List.mem_of_mem_take hx
          cases e with
          | false => simp at hx'
          | true =>
            simp only [if_true] at hx'
            exact ((tone_tables_ok _ (toneGet_mem tone)).2.2 x hx').2 hcx

/-- Normal form of the `generate_captions` handler. -/
theorem generate_captions_eq (r : GenerateRequest) (ks : Nat → Nat)
    (persist : Except Unit Str) :
    generate_captions r ks persist =
      if pydantic_valid r = false then Except.error 422
      else if strip r.topic = [] then Except.error 400
      else Except.ok ((List.range r.variants).map (fun i =>
          build_caption (strip r.topic) (lower r.tone) (lower r.platform) (lower r.length)
            r.include_emojis r.include_hashtags (ks i)),
        match persist with | .ok i => some i | .error _ => none) := by
  by_cases hv : pydantic_valid r = true
  · by_cases ht : strip r.topic = []
    · simp [generate_captions, hv, ht]
    · simp [generate_captions, hv, ht, List.isEmpty_iff]
  · have hv' : pydantic_valid r = false := by
      revert hv; cases pydantic_valid r <;> simp
    simp [generate_captions, hv']

/-- Inversion of a successful `generate_captions` call: the returned variants
are exactly the `variant_count` captions built in loop order. -/
theorem generate_captions_ok_inv {r : GenerateRequest} {ks : Nat → Nat}
    {persist : Except Unit Str} {v : List Str × Option Str}
    (hok : generate_captions r ks persist = Except.ok v) :
    v.1 = (List.range r.variants).map (fun i =>
      build_caption (strip r.topic) (lower r.tone) (lower r.platform) (lower r.length)
        r.include_emojis r.include_hashtags (ks i)) := by
  rw [generate_captions_eq] at hok
  by_cases hv : pydantic_valid r = false
  · rw [if_pos hv] at hok; exact absurd hok (by simp)
  · rw [if_neg hv] at hok
    by_cases ht : strip r.topic = []
    · rw [if_pos ht] at hok; exact absurd hok (by simp)
    · rw [if_neg ht] at hok
      injection hok with h
      rw [← h]

end Lemmas

section Claims

/-- C1: with the hashtag gate on and a length in {short, medium, long},
`suggest_hashtags` joins with single spaces the list obtained by
concatenating up-to-3 alphabetic topic tokens (lowercased, `#`-prefixed),
the first 3 platform tags (empty for unknown platforms) and the first
3 (short) or 5 (otherwise) generic tags, deduplicated preserving first
occurrence and truncated to 4/7/10 tags for short/medium/long; in
particular the tag list has no duplicates. -/
theorem hashtag_selector_matches_spec (t p l : Str)
    (_hl : l = "short".toList ∨ l = "medium".toList ∨ l = "long".toList) :
    ∃ tags : List Str,
      suggest_hashtags t p true l = joinSpace tags ∧
      tags = (dedupAvoid []
          ((((pySplit t).filter pyIsAlpha).map (fun w => '#' :: lower w)).take 3
            ++ (platformGet p).take 3
            ++ GENERIC_HASHTAGS.take (if l = "short".toList then 3 else 5))).take
          (if l = "short".toList then 4 else if l = "medium".toList then 7 else 10) ∧
      tags.Nodup ∧
      tags.length ≤ (if l = "short".toList then 4 else if l = "medium".toList then 7 else 10) := by
  have hlim : 0 < (if l = "short".toList then 4 else if l = "medium".toList then 7 else 10) := by
    by_cases h1 : l = "short".toList
    · rw [if_pos h1]; omega
    · rw [if_neg h1]
      by_cases h2 : l = "medium".toList
      · rw [if_pos h2]; omega
      · rw [if_neg h2]; omega
  have hkey : suggest_hashtags t p true l =
      joinSpace (uniqueLoop
        (if l = "short".toList then 4 else if l = "medium".toList then 7 else 10) [] []
        ((((pySplit t).filter pyIsAlpha).map (fun w => '#' :: lower w)).take 3
          ++ (platformGet p).take 3
          ++ GENERIC_HASHTAGS.take (if l = "short".toList then 3 else 5))) := rfl
  have heq := uniqueLoop_eq_dedup_take
    ((((pySplit t).filter pyIsAlpha).map (fun w => '#' :: lower w)).take 3
      ++ (platformGet p).take 3
      ++ GENERIC_HASHTAGS.take (if l = "short".toList then 3 else 5))
    (if l = "short".toList then 4 else if l = "medium".toList then 7 else 10)
    ([] : List Str) ([] : List Str) (by rw [List.length_nil]; exact hlim)
  rw [List.nil_append] at heq
  refine ⟨_, hkey, heq, ?_, ?_⟩
  · rw [heq]
    exact (dedupAvoid_nodup _ _).sublist (List.take_sublist _ _)
  · rw [heq]
    exact List.length_take_le _ _

/-- C1 witness: the theorem instantiated at the spec's concrete scenario
(topic "coffee shop launch", platform "instagram", length "short"). -/
theorem hashtag_selector_matches_spec_witness :
    ∃ tags : List Str,
      suggest_hashtags "coffee shop launch".toList "instagram".toList true "short".toList
        = joinSpace tags ∧
      tags = (dedupAvoid []
          ((((pySplit "coffee shop launch".toList).filter pyIsAlpha).map
              (fun w => '#' :: lower w)).take 3
            ++ (platformGet "instagram".toList).take 3
            ++ GENERIC_HASHTAGS.take
              (if "short".toList = "short".toList then 3 else 5))).take
          (if "short".toList = "short".toList then 4
           else if "short".toList = "medium".toList then 7 else 10) ∧
      tags.Nodup ∧
      tags.length ≤ (if "short".toList = "short".toList then 4
           else if "short".toList = "medium".toList then 7 else 10) :=
  hashtag_selector_matches_spec "coffee shop launch".toList "instagram".toList
    "short".toList (Or.inl rfl)

/-- C2: every valid request (raw topic length ≥ 3, 1 ≤ variants ≤ 10, topic
non-empty after trimming) yields exactly `variants` caption strings, the
`i`-th being the `i`-th independent `build_caption` invocation, in order. -/
theorem generate_returns_variant_count (r : GenerateRequest) (ks : Nat → Nat)
    (persist : Except Unit Str)
    (hv : pydantic_valid r = true) (ht : strip r.topic ≠ []) :
    ∃ vs saved, generate_captions r ks persist = Except.ok (vs, saved) ∧
      vs.length = r.variants ∧
      ∀ i, i < r.variants → vs.getD i [] =
        build_caption (strip r.topic) (lower r.tone) (lower r.platform) (lower r.length)
          r.include_emojis r.include_hashtags (ks i) := by
  rw [generate_captions_eq, if_neg (by simp [hv]), if_neg ht]
  refine ⟨_, _, rfl, by simp, ?_⟩
  intro i hi
  have hlen : i < ((List.range r.variants).map (fun i =>
      build_caption (strip r.topic) (lower r.tone) (lower r.platform) (lower r.length)
        r.include_emojis r.include_hashtags (ks i))).length := by
    simpa using hi
  rw [List.getD_eq_getElem _ _ hlen]
  simp

/-- C2 witness: a concrete valid request with the default `variants = 3`. -/
theorem generate_returns_variant_count_witness :
    pydantic_valid { topic := "coffee shop launch".toList } = true ∧
    strip ({ topic := "coffee shop launch".toList } : GenerateRequest).topic ≠ [] ∧
    ∃ vs saved, generate_captions { topic := "coffee shop launch".toList }
        (fun i => i) (Except.ok "id1".toList) = Except.ok (vs, saved) ∧
      vs.length = ({ topic := "coffee shop launch".toList } : GenerateRequest).variants ∧
      ∀ i, i < ({ topic := "coffee shop launch".toList } : GenerateRequest).variants →
        vs.getD i [] = build_caption
          (strip ({ topic := "coffee shop launch".toList } : GenerateRequest).topic)
          (lower ({ topic := "coffee shop launch".toList } : GenerateRequest).tone)
          (lower ({ topic := "coffee shop launch".toList } : GenerateRequest).platform)
          (lower ({ topic := "coffee shop launch".toList} : GenerateRequest).length)
          true true i :=
  ⟨by decide, by decide,
    generate_returns_variant_count { topic := "coffee shop launch".toList }
      (fun i => i) (Except.ok "id1".toList) (by decide) (by decide)⟩

/-- C3 counterexample: the claim quantifies over any topic, but the topic is
interpolated verbatim into the caption body, so the valid request with topic
"ab#" and `include_hashtags = false` returns a variant containing `#`. -/
theorem no_hash_claim_counterexample :
    ∃ v, generate_captions { topic := "ab#".toList, include_hashtags := false, variants := 1 }
        (fun _ => 0) (Except.error ()) = Except.ok v ∧ '#' ∈ v.1.getD 0 [] :=
  ⟨_, rfl, by decide⟩

/-- C3 amended: for every request with `include_hashtags = false` whose topic
contains no `#` character, no returned variant contains `#`. -/
theorem no_hash_when_gate_off (r : GenerateRequest) (ks : Nat → Nat)
    (persist : Except Unit Str) (v : List Str × Option Str)
    (htop : '#' ∉ r.topic) (hgate : r.include_hashtags = false)
    (hok : generate_captions r ks persist = Except.ok v) :
    ∀ s ∈ v.1, '#' ∉ s := by
  intro s hs
  rw [generate_captions_ok_inv hok] at hs
  obtain ⟨i, _, rfl⟩ := List.mem_map.mp hs
  rw [hgate]
  apply hash_not_mem_build_caption
  intro hmem
  exact htop (mem_of_mem_strip hmem)

/-- C3 amended witness: concrete request with topic "abc" and the gate off. -/
theorem no_hash_when_gate_off_witness :
    ∃ v, generate_captions { topic := "abc".toList, include_hashtags := false, variants := 1 }
        (fun _ => 0) (Except.error ()) = Except.ok v ∧ ∀ s ∈ v.1, '#' ∉ s :=
  ⟨_, rfl, no_hash_when_gate_off
    { topic := "abc".toList, include_hashtags := false, variants := 1 }
    (fun _ => 0) (Except.error ()) _ (by decide) rfl rfl⟩

/-- C4 counterexample: for the unrecognized length "verylong" the hashtag
line is truncated at 10 tags, not 7, so the program does not behave exactly
as for "medium" (here 11 distinct candidate tags are available). -/
theorem unrecognized_length_claim_counterexample :
    suggest_hashtags "alpha bravo charlie".toList "instagram".toList true "verylong".toList
      ≠ suggest_hashtags "alpha bravo charlie".toList "instagram".toList true "medium".toList := by
  decide

/-- C4 amended: an unrecognized length uses the medium body template and the
first 5 generic hashtags, but its hashtag line is truncated at 10 tags as for
`long` (not 7): `suggest_hashtags` behaves exactly as for "long". -/
theorem unrecognized_length_behavior (t p len : Str) (g : Bool)
    (h1 : len ≠ "short".toList) (h2 : len ≠ "medium".toList) (h3 : len ≠ "long".toList) :
    length_core t len = length_core t "medium".toList ∧
    suggest_hashtags t p g len = suggest_hashtags t p g "long".toList := by
  constructor
  · unfold length_core
    rw [if_neg h1, if_neg h3,
      if_neg (by decide : ¬("medium".toList = "short".toList)),
      if_neg (by decide : ¬("medium".toList = "long".toList))]
  · cases g with
    | false => rfl
    | true =>
      have hL : suggest_hashtags t p true len =
          joinSpace (uniqueLoop
            (if len = "short".toList then 4 else if len = "medium".toList then 7 else 10) [] []
            ((((pySplit t).filter pyIsAlpha).map (fun w => '#' :: lower w)).take 3
              ++ (platformGet p).take 3
              ++ GENERIC_HASHTAGS.take (if len = "short".toList then 3 else 5))) := rfl
      have hR : suggest_hashtags t p true "long".toList =
          joinSpace (uniqueLoop 10 [] []
            ((((pySplit t).filter pyIsAlpha).map (fun w => '#' :: lower w)).take 3
              ++ (platformGet p).take 3
              ++ GENERIC_HASHTAGS.take 5)) := rfl
      rw [hL, hR, if_neg h1, if_neg h1, if_neg h2]

/-- C4 amended witness: concrete unrecognized length "huge". -/
theorem unrecognized_length_behavior_witness :
    length_core "x y".toList "huge".toList = length_core "x y".toList "medium".toList ∧
    suggest_hashtags "x y".toList "tiktok".toList true "huge".toList
      = suggest_hashtags "x y".toList "tiktok".toList true "long".toList :=
  unrecognized_length_behavior "x y".toList "tiktok".toList "huge".toList true
    (by decide) (by decide) (by decide)

/-- C5 counterexample: the short body template in the code uses the Unicode
right single quotation mark, not the ASCII apostrophe the claim quotes, so
the body is not the claimed string. -/
theorem caption_body_claim_counterexample :
    length_core "abc".toList "short".toList = "abc — let’s go!".toList ∧
    length_core "abc".toList "short".toList
      ≠ "abc — let".toList ++ Char.ofNat 39 :: "s go!".toList := by
  constructor
  · decide
  · decide

/-- C5 amended: every variant is a tone prefix from the resolved tone profile
(the friendly profile when the tone is unrecognized, e.g. "mystery"),
followed by a space and the length-keyed body with the topic substituted
verbatim; for short the body is "{topic} — let’s go!" with the Unicode right
single quotation mark as in the code. -/
theorem caption_prefix_and_body (t tone p len : Str) (e h : Bool) (k : Nat) :
    (∃ pfx ∈ (toneGet tone).prefixes, ∃ rest,
        build_caption t tone p len e h k = pfx ++ ' ' :: length_core t len ++ rest) ∧
    length_core t "short".toList = t ++ " — let’s go!".toList ∧
    toneGet "mystery".toList = friendlyStyle := by
  refine ⟨?_, ?_, ?_⟩
  · have hne := (tone_tables_ok _ (toneGet_mem tone)).1
    exact ⟨choose (toneGet tone).prefixes k, choose_mem hne k, _,
      by rw [build_caption_no_strip, List.append_assoc]⟩
  · unfold length_core
    rw [if_pos rfl]
  · rfl

/-- C6 counterexample: the request with topic "  a " (raw length 4, trimmed
length 1 < 3) is accepted and variants are generated, contradicting the
claim that topics shorter than 3 characters after trimming are rejected. -/
theorem topic_validation_claim_counterexample :
    (∃ v, generate_captions { topic := "  a ".toList } (fun _ => 0) (Except.error ())
        = Except.ok v) ∧
    (strip "  a ".toList).length < 3 := by
  constructor
  · exact ⟨_, rfl⟩
  · decide

/-- C6 amended: a request is accepted exactly when the raw topic has at least
3 characters, `variants` is in 1..10, and the topic is non-empty after
trimming; rejections happen before any variant is generated (pydantic's
min_length applies to the untrimmed topic). -/
theorem generate_accepts_iff (r : GenerateRequest) (ks : Nat → Nat)
    (persist : Except Unit Str) :
    (∃ v, generate_captions r ks persist = Except.ok v) ↔
      (3 ≤ r.topic.length ∧ 1 ≤ r.variants ∧ r.variants ≤ 10 ∧ strip r.topic ≠ []) := by
  rw [generate_captions_eq]
  by_cases hv : pydantic_valid r = false
  · rw [if_pos hv]
    constructor
    · intro ⟨v, hok⟩
      exact absurd hok (by simp)
    · intro ⟨h1, h2, h3, _⟩
      exfalso
      have : pydantic_valid r = true := by
        unfold pydantic_valid
        simp only [Bool.and_eq_true, decide_eq_true_eq]
        exact ⟨⟨h1, h2⟩, h3⟩
      rw [this] at hv
      exact absurd hv (by simp)
  · rw [if_neg hv]
    have hv' : pydantic_valid r = true := by
      revert hv; cases pydantic_valid r <;> simp
    have hval : 3 ≤ r.topic.length ∧ 1 ≤ r.variants ∧ r.variants ≤ 10 := by
      unfold pydantic_valid at hv'
      simp only [Bool.and_eq_true, decide_eq_true_eq] at hv'
      exact ⟨hv'.1.1, hv'.1.2, hv'.2⟩
    by_cases ht : strip r.topic = []
    · rw [if_pos ht]
      constructor
      · intro ⟨v, hok⟩
        exact absurd hok (by simp)
      · intro ⟨_, _, _, h4⟩
        exact absurd ht h4
    · rw [if_neg ht]
      constructor
      · intro _
        exact ⟨hval.1, hval.2.1, hval.2.2, ht⟩
      · intro _
        exact ⟨_, rfl⟩

/-- C7: when the persistence create raises, the endpoint still returns the
full variants list with `saved_id = none`; the failure is absorbed. -/
theorem persistence_failure_absorbed (r : GenerateRequest) (ks : Nat → Nat) (e : Unit)
    (hv : pydantic_valid r = true) (ht : strip r.topic ≠ []) :
    ∃ vs, generate_captions r ks (Except.error e) = Except.ok (vs, none) ∧
      vs.length = r.variants := by
  rw [generate_captions_eq, if_neg (by simp [hv]), if_neg ht]
  exact ⟨_, rfl, by simp⟩

/-- C7 witness: concrete valid request whose persistence call raises. -/
theorem persistence_failure_absorbed_witness :
    ∃ vs, generate_captions { topic := "coffee".toList } (fun _ => 0) (Except.error ())
        = Except.ok (vs, none) ∧
      vs.length = ({ topic := "coffee".toList } : GenerateRequest).variants :=
  persistence_failure_absorbed { topic := "coffee".toList } (fun _ => 0) ()
    (by decide) (by decide)

/-- C8: `suggest_hashtags` is a pure function of its four arguments — it takes
no randomness source (unlike `build_caption`, which takes the draw `k`), so
two calls with identical inputs return identical output. -/
theorem suggest_hashtags_deterministic (t p : Str) (g : Bool) (l : Str) :
    suggest_hashtags t p g l = suggest_hashtags t p g l := rfl

/-- C9: with the hashtag gate on the selector output is non-empty (the
generic fallback always contributes), and every variant built with
`include_hashtags = true` ends with the hashtag block after two newlines. -/
theorem variants_end_with_hashtag_block (t tone p len : Str) (e : Bool) (k : Nat) :
    suggest_hashtags t p true len ≠ [] ∧
    ∃ pre, build_caption t tone p len e true k
        = pre ++ '\n' :: '\n' :: suggest_hashtags t p true len := by
  obtain ⟨hne, _⟩ := suggest_hashtags_true_ok t p len
  refine ⟨hne, ?_⟩
  rw [build_caption_no_strip]
  have hht : ¬ (suggest_hashtags t p true len).isEmpty = true := by
    simpa [List.isEmpty_iff] using hne
  rw [if_neg hht]
  exact ⟨_, rfl⟩

/-- C10: a request built from only a topic takes the pydantic defaults
tone "friendly", platform "instagram", length "medium", emojis on,
hashtags on, 3 variants. -/
theorem request_defaults (t : Str) :
    ({ topic := t } : GenerateRequest).tone = "friendly".toList ∧
    ({ topic := t } : GenerateRequest).platform = "instagram".toList ∧
    ({ topic := t } : GenerateRequest).length = "medium".toList ∧
    ({ topic := t } : GenerateRequest).include_emojis = true ∧
    ({ topic := t } : GenerateRequest).include_hashtags = true ∧
    ({ topic := t } : GenerateRequest).variants = 3 :=
  ⟨rfl, rfl, rfl, rfl, rfl, rfl⟩

end Claims
